import Mathlib

/-!
Verification of the Quinx.chat backend RAG pipeline against its specification.

The Python source is shallowly embedded: pure data transformations become Lean
functions, stateful components become explicit state passing, exceptions become
`Except`, and external collaborators (the language model, the embedding model
loader, the filesystem) become explicit oracle parameters so that their
invocations are observable in the model.
-/

namespace RAGSpec

/-- A metadata value: the metadata maps in the source are string-keyed Python
dicts holding strings or integers. -/
inductive MetaVal where
  | str : String → MetaVal
  | int : Int → MetaVal
deriving DecidableEq, Repr

/-- A metadata map, as an ordered key-value list (mirrors Python dict insertion
order). -/
abbrev Metadata := List (String × MetaVal)

/-- Python dict assignment `m[k] = v`: replace the value in place when the key
exists, else append the new pair at the end. -/
def Metadata.setKey (m : Metadata) (k : String) (v : MetaVal) : Metadata :=
  if m.any (fun p => p.1 == k) then
    m.map (fun p => if p.1 == k then (k, v) else p)
  else m ++ [(k, v)]

/-- A langchain `Document`: page content plus a metadata map. -/
structure Document where
  page_content : String
  metadata : Metadata
deriving DecidableEq, Repr

/-- Input to `DocumentProcessor.process_excel`: the spreadsheet as pandas
presents it, with cell values already rendered to strings (the source renders
each value with an f-string). -/
structure ExcelSheet where
  path : String
  fileName : String
  columns : List String
  rows : List (List String)
deriving Repr

/-- `DocumentProcessor.process_excel`: one `Document` per row, in row order;
the text joins the "column: value" pairs of the row with the separator
specified by the source, in column order. -/
def process_excel (sheet : ExcelSheet) : List Document :=
  sheet.rows.enum.map fun p =>
    { page_content :=
        String.intercalate " | " ((sheet.columns.zip p.2).map fun cv => cv.1 ++ ": " ++ cv.2),
      metadata :=
        [("source_file", .str sheet.path), ("file_name", .str sheet.fileName),
         ("file_type", .str "excel"), ("row_index", .int p.1)] }

/-- Claim C3: the spreadsheet loader produces exactly one record per row, in
row order, and each record text is the concatenation of "column: value" pairs
for every column in column order, separated by the fixed " | " delimiter. -/
theorem claim_C3 (sheet : ExcelSheet) :
    (process_excel sheet).length = sheet.rows.length ∧
    ∀ (i : Nat) (row : List String), sheet.rows[i]? = some row →
      ((process_excel sheet)[i]?).map Document.page_content =
        some (String.intercalate " | "
          ((sheet.columns.zip row).map fun cv => cv.1 ++ ": " ++ cv.2)) := by
  constructor
  · simp [process_excel]
  · intro i row h
    simp [process_excel, List.getElem?_map, List.getElem?_enum, h]

/-- Witness for C3, the end-to-end example from the specification: columns
name, age with rows (Ann, 30) and (Bo, 40). -/
theorem claim_C3_witness :
    ((process_excel ⟨"f.xlsx", "f.xlsx", ["name", "age"],
        [["Ann", "30"], ["Bo", "40"]]⟩)[0]?).map Document.page_content =
      some "name: Ann | age: 30" ∧
    ((process_excel ⟨"f.xlsx", "f.xlsx", ["name", "age"],
        [["Ann", "30"], ["Bo", "40"]]⟩)[1]?).map Document.page_content =
      some "name: Bo | age: 40" := by
  refine ⟨?_, ?_⟩
  · rw [(claim_C3 ⟨"f.xlsx", "f.xlsx", ["name", "age"],
        [["Ann", "30"], ["Bo", "40"]]⟩).2 0 ["Ann", "30"] rfl]
    rfl
  · rw [(claim_C3 ⟨"f.xlsx", "f.xlsx", ["name", "age"],
        [["Ann", "30"], ["Bo", "40"]]⟩).2 1 ["Bo", "40"] rfl]
    rfl

/-- A persisted vector store record: unique id, embedding vector, chunk text,
metadata map. Embedding coordinates are modelled as exact rationals. -/
structure StoredRecord where
  id : String
  embedding : List ℚ
  text : String
  metadata : Metadata
deriving DecidableEq

/-- The error raised by `VectorStoreManager.add_documents` when the document
and embedding lists disagree in length (a Python `ValueError`). -/
inductive VSError where
  | arityMismatch
deriving DecidableEq, Repr

/-- `VectorStoreManager.add_documents`. The Python method first checks
`len(documents) != len(embeddings)` and raises before touching the collection;
otherwise it builds ids, augmented metadata, texts and embedding lists and
extends the collection with one `collection.add` call. The uuid-based id
generation is abstracted as the oracle `idGen` (the source uses
`doc_` + uuid fragment + index). The pair returned is (outcome, state of the
collection after the call). -/
def add_documents (idGen : Nat → String) (store : List StoredRecord)
    (documents : List Document) (embeddings : List (List ℚ)) :
    Except VSError Unit × List StoredRecord :=
  if documents.length ≠ embeddings.length then
    (.error .arityMismatch, store)
  else
    (.ok (), store ++ (documents.zip embeddings).enum.map fun p =>
      { id := idGen p.1,
        embedding := p.2.2,
        text := p.2.1.page_content,
        metadata :=
          (p.2.1.metadata.setKey "doc_index" (.int p.1)).setKey
            "content_length" (.int p.2.1.page_content.length) })

/-- Claim C2: `add_documents` fails with the arity-mismatch error if and only
if the chunk list and the embedding list have unequal lengths. -/
theorem claim_C2 (idGen : Nat → String) (store : List StoredRecord)
    (documents : List Document) (embeddings : List (List ℚ)) :
    (add_documents idGen store documents embeddings).1 = .error .arityMismatch ↔
      documents.length ≠ embeddings.length := by
  by_cases h : documents.length = embeddings.length <;>
    simp [add_documents, h]

/-- Claim C10: when `add_documents` fails on the arity check, the collection
is left exactly as it was before the call (the check precedes any write). -/
theorem claim_C10 (idGen : Nat → String) (store : List StoredRecord)
    (documents : List Document) (embeddings : List (List ℚ))
    (h : documents.length ≠ embeddings.length) :
    (add_documents idGen store documents embeddings).2 = store ∧
    (add_documents idGen store documents embeddings).1 = .error .arityMismatch := by
  simp [add_documents, h]

/-- Witness for C10: inserting one document with zero embeddings leaves a
one-record store untouched and reports the arity mismatch. -/
theorem claim_C10_witness :
    (add_documents (fun _ => "id") [⟨"r0", [1], "t", []⟩]
        [⟨"d", []⟩] []).2 = [⟨"r0", [1], "t", []⟩] ∧
    (add_documents (fun _ => "id") [⟨"r0", [1], "t", []⟩]
        [⟨"d", []⟩] []).1 = .error .arityMismatch :=
  claim_C10 (fun _ => "id") [⟨"r0", [1], "t", []⟩] [⟨"d", []⟩] [] (by decide)

/-- Claim C8: after a successful insert, the i-th stored record of the batch
carries the i-th chunk metadata augmented with exactly the positional index
`doc_index` = i and `content_length` = length of the chunk text. -/
theorem claim_C8 (idGen : Nat → String) (store : List StoredRecord)
    (documents : List Document) (embeddings : List (List ℚ))
    (h : documents.length = embeddings.length)
    (i : Nat) (d : Document) (hd : documents[i]? = some d) :
    (((add_documents idGen store documents embeddings).2.drop store.length)[i]?).map
        StoredRecord.metadata =
      some ((d.metadata.setKey "doc_index" (.int i)).setKey
        "content_length" (.int d.page_content.length)) := by
  have hi : i < documents.length := (List.getElem?_eq_some.mp hd).1
  obtain ⟨e, he⟩ : ∃ e, embeddings[i]? = some e :=
    ⟨_, List.getElem?_eq_getElem (show i < embeddings.length by omega)⟩
  have hz : (documents.zip embeddings)[i]? = some (d, e) :=
    List.getElem?_zip_eq_some.mpr ⟨hd, he⟩
  simp [add_documents, h, List.drop_left, List.getElem?_map, List.getElem?_enum, hz]

/-- Witness for C8: one chunk with text "ab" and prior metadata (k, v) is
stored with metadata augmented by doc_index = 0 and content_length = 2. -/
theorem claim_C8_witness :
    (((add_documents (fun _ => "id") [] [⟨"ab", [("k", MetaVal.str "v")]⟩]
        [[1]]).2.drop (List.length ([] : List StoredRecord)))[0]?).map StoredRecord.metadata =
      some [("k", MetaVal.str "v"), ("doc_index", MetaVal.int 0),
            ("content_length", MetaVal.int 2)] :=
  (claim_C8 (fun _ => "id") [] [⟨"ab", [("k", MetaVal.str "v")]⟩] [[1]] rfl 0
    ⟨"ab", [("k", MetaVal.str "v")]⟩ rfl).trans (by decide)

/-- State of `EmbeddingManager`: the lazily loaded model (`None` until a load
succeeds, as in the source) together with the log of load-attempt outcomes,
oldest first. Models are identified by an abstract numeric handle. -/
structure EmbeddingManager where
  model : Option Nat
  loadAttempts : List (Option Nat)
deriving DecidableEq, Repr

/-- The state right after `EmbeddingManager.__init__`: no model loaded, no
load attempted (the source removed the eager load from the constructor). -/
def EmbeddingManager.init : EmbeddingManager :=
  { model := none, loadAttempts := [] }

/-- One call of `EmbeddingManager.generate_embeddings`, with the underlying
`SentenceTransformer` constructor abstracted as the oracle `loader`, indexed
by attempt number (`none` = the load raised; the source then stores `None`
back into `self.model` and re-raises). Returns the new state and whether the
call reached the encode step (`true`) or raised (`false`). -/
def generate_embeddings (loader : Nat → Option Nat) (s : EmbeddingManager) :
    EmbeddingManager × Bool :=
  match s.model with
  | some _ => (s, true)
  | none =>
    let r := loader s.loadAttempts.length
    ({ model := r, loadAttempts := s.loadAttempts ++ [r] }, r.isSome)

/-- The manager state after n calls of `generate_embeddings` from a fresh
manager. -/
def runGenerateCalls (loader : Nat → Option Nat) : Nat → EmbeddingManager
  | 0 => EmbeddingManager.init
  | n + 1 => (generate_embeddings loader (runGenerateCalls loader n)).1

/-- Number of load attempts that succeeded, over the lifetime so far. -/
def successfulLoads (s : EmbeddingManager) : Nat :=
  (s.loadAttempts.filter Option.isSome).length

/-- Once the model is loaded, `generate_embeddings` leaves the manager state
unchanged and performs no load attempt. -/
theorem generate_embeddings_of_loaded (loader : Nat → Option Nat)
    (s : EmbeddingManager) (h : s.model.isSome = true) :
    generate_embeddings loader s = (s, true) := by
  cases hm : s.model with
  | none => rw [hm] at h; simp at h
  | some m => simp [generate_embeddings, hm]

/-- Invariant of the call loop: while no model is loaded, no load attempt has
ever succeeded; and at most one load attempt ever succeeds. -/
theorem runGenerateCalls_inv (loader : Nat → Option Nat) (n : Nat) :
    ((runGenerateCalls loader n).model = none →
      successfulLoads (runGenerateCalls loader n) = 0) ∧
    successfulLoads (runGenerateCalls loader n) ≤ 1 := by
  induction n with
  | zero => simp [runGenerateCalls, EmbeddingManager.init, successfulLoads]
  | succ n ih =>
    rw [runGenerateCalls]
    cases hm : (runGenerateCalls loader n).model with
    | some m =>
      rw [generate_embeddings_of_loaded loader _ (by rw [hm]; rfl)]
      exact ⟨fun h => (by rw [hm] at h; exact Option.noConfusion h), ih.2⟩
    | none =>
      have h0 : successfulLoads (runGenerateCalls loader n) = 0 := ih.1 hm
      simp only [generate_embeddings, hm, successfulLoads, List.filter_append,
        List.length_append] at h0 ⊢
      cases hr : loader (runGenerateCalls loader n).loadAttempts.length with
      | none => simp [successfulLoads, h0, List.filter_append]
      | some v => simp [successfulLoads, h0, List.filter_append]

/-- After a successful load the manager state is frozen: later calls change
nothing (in particular they attempt no further load). -/
theorem runGenerateCalls_frozen (loader : Nat → Option Nat) (n : Nat)
    (h : (runGenerateCalls loader n).model.isSome = true) :
    ∀ m, n ≤ m → runGenerateCalls loader m = runGenerateCalls loader n := by
  intro m hm
  induction m with
  | zero =>
    have : n = 0 := Nat.le_zero.mp hm
    rw [this]
  | succ m ih =>
    rcases Nat.lt_or_ge n (m + 1) with hlt | hge
    · have hnm : n ≤ m := Nat.lt_succ_iff.mp hlt
      have heq := ih hnm
      rw [runGenerateCalls, heq, generate_embeddings_of_loaded loader _ h]
    · have hn : n = m + 1 := le_antisymm hm hge
      rw [hn]

/-- Claim C5 (amended): across any sequence of `generate_embeddings` calls,
the model is successfully loaded at most once; once a load succeeds the state
never changes again; but after a failed load the next call re-attempts the
load, adding one more load attempt. -/
theorem claim_C5 (loader : Nat → Option Nat) (n : Nat) :
    successfulLoads (runGenerateCalls loader n) ≤ 1 ∧
    (∀ m, n ≤ m → (runGenerateCalls loader n).model.isSome = true →
      runGenerateCalls loader m = runGenerateCalls loader n) ∧
    ((runGenerateCalls loader n).model = none →
      (runGenerateCalls loader (n + 1)).loadAttempts.length =
        (runGenerateCalls loader n).loadAttempts.length + 1) := by
  refine ⟨(runGenerateCalls_inv loader n).2, ?_, ?_⟩
  · intro m hm h
    exact runGenerateCalls_frozen loader n h m hm
  · intro h
    rw [runGenerateCalls]
    simp [generate_embeddings, h]

/-- Counterexample to C5 as stated: with a loader that always fails, two
calls perform two load attempts (and zero successful loads) — not exactly
one load regardless of earlier failures. -/
theorem claim_C5_counterexample :
    (runGenerateCalls (fun _ => none) 2).loadAttempts.length = 2 ∧
    successfulLoads (runGenerateCalls (fun _ => none) 2) = 0 := by
  decide

/-- Witness for the amended C5: a loader that succeeds immediately gives at
most one successful load and a frozen state from call 1 to call 3; a failing
loader re-attempts on the next call. -/
theorem claim_C5_witness :
    successfulLoads (runGenerateCalls (fun _ => some 7) 3) ≤ 1 ∧
    runGenerateCalls (fun _ => some 7) 3 = runGenerateCalls (fun _ => some 7) 1 ∧
    (runGenerateCalls (fun _ => none) 2).loadAttempts.length =
      (runGenerateCalls (fun _ => none) 1).loadAttempts.length + 1 :=
  ⟨(claim_C5 (fun _ => some 7) 3).1,
   (claim_C5 (fun _ => some 7) 1).2.1 3 (by decide) (by decide),
   (claim_C5 (fun _ => none) 1).2.2 (by decide)⟩

/-- Modelled from the spec: the chunk splitter used by
`DocumentProcessor.create_chunks` is library code
(`RecursiveCharacterTextSplitter`) that is not part of this repository. The
spec describes it as a sliding window: pieces of at most L characters, where
the next chunk begins O characters before the end of the previous chunk,
with a hard character cut as the last-resort separator. Separator alignment
is abstracted to that last resort, so the window advances by exactly L - O
characters. The recursion is driven by a fuel argument that `splitText`
instantiates with the text length, which always suffices. -/
def splitTextAux (L O : Nat) : Nat → List Char → List (List Char)
  | 0, s => [s]
  | fuel + 1, s =>
    if s.length ≤ L ∨ L ≤ O then [s]
    else s.take L :: splitTextAux L O fuel (s.drop (L - O))

/-- The chunk splitter on one text: sliding window of width L advancing by
L - O characters (see `splitTextAux`). -/
def splitText (L O : Nat) (s : List Char) : List (List Char) :=
  splitTextAux L O s.length s

/-- The splitter always produces at least one chunk. -/
theorem splitTextAux_ne_nil (L O fuel : Nat) (s : List Char) :
    splitTextAux L O fuel s ≠ [] := by
  cases fuel with
  | zero => simp [splitTextAux]
  | succ fuel => rw [splitTextAux]; split <;> simp

/-- With enough fuel, every chunk produced has at most L characters. -/
theorem splitTextAux_length_le (L O : Nat) (hO : O < L) :
    ∀ (fuel : Nat) (s : List Char), s.length ≤ fuel →
      ∀ c ∈ splitTextAux L O fuel s, c.length ≤ L := by
  intro fuel
  induction fuel with
  | zero =>
    intro s hs c hc
    rw [splitTextAux] at hc
    rcases List.mem_singleton.mp hc with rfl
    omega
  | succ fuel ih =>
    intro s hs c hc
    rw [splitTextAux] at hc
    by_cases hcond : s.length ≤ L ∨ L ≤ O
    · rw [if_pos hcond] at hc
      rcases List.mem_singleton.mp hc with rfl
      omega
    · rw [if_neg hcond] at hc
      push_neg at hcond
      rcases List.mem_cons.mp hc with rfl | hc
      · simp only [List.length_take]
        exact Nat.min_le_left L s.length
      · exact ih (s.drop (L - O)) (by simp [List.length_drop]; omega) c hc

/-- The first chunk starts with the first O characters of the input. -/
theorem splitTextAux_headD_take (L O fuel : Nat) (s : List Char) (hOL : O ≤ L) :
    ((splitTextAux L O fuel s).headD []).take O = s.take O := by
  cases fuel with
  | zero => rfl
  | succ fuel =>
    rw [splitTextAux]
    split
    · rfl
    · simp [List.take_take, Nat.min_eq_left hOL]

/-- Adjacent chunks overlap by exactly O characters: the last O characters of
each chunk are the first O characters of the next. -/
theorem splitTextAux_chain (L O : Nat) (hO : O < L) :
    ∀ (fuel : Nat) (s : List Char),
      (splitTextAux L O fuel s).Chain' (fun a b =>
        (a.drop (a.length - O)).length = O ∧ a.drop (a.length - O) = b.take O) := by
  intro fuel
  induction fuel with
  | zero => intro s; exact List.chain'_singleton s
  | succ fuel ih =>
    intro s
    rw [splitTextAux]
    by_cases hcond : s.length ≤ L ∨ L ≤ O
    · rw [if_pos hcond]
      exact List.chain'_singleton s
    · rw [if_neg hcond]
      push_neg at hcond
      rw [List.chain'_cons']
      refine ⟨?_, ih (s.drop (L - O))⟩
      intro y hy
      cases hsp : splitTextAux L O fuel (s.drop (L - O)) with
      | nil => exact absurd hsp (splitTextAux_ne_nil L O fuel _)
      | cons b t =>
        rw [hsp] at hy
        simp only [List.head?_cons, Option.mem_def, Option.some.injEq] at hy
        subst hy
        have hlen : (s.take L).length = L := by
          simp [Nat.min_eq_left (le_of_lt hcond.1)]
        have hdrop : (s.take L).drop (L - O) = (s.drop (L - O)).take O := by
          rw [List.drop_take]
          congr 1
          omega
        have hbtake : b.take O = (s.drop (L - O)).take O := by
          have := splitTextAux_headD_take L O fuel (s.drop (L - O)) (le_of_lt hO)
          rw [hsp] at this
          simp only [List.headD_cons] at this
          exact this
        refine ⟨?_, ?_⟩
        · rw [hlen, hdrop]
          simp only [List.length_take, List.length_drop]
          omega
        · rw [hlen, hdrop, hbtake]

/-- Claim C4: for every text longer than the maximum chunk length L, with
overlap O < L, every produced chunk has length at most L, and each pair of
adjacent chunks shares a suffix/prefix of length exactly O (the model fixes
the separator-alignment tolerance to the hard-cut last resort). -/
theorem claim_C4 (L O : Nat) (s : List Char) (hO : O < L) (hs : L < s.length) :
    (∀ c ∈ splitText L O s, c.length ≤ L) ∧
    (splitText L O s).Chain' (fun a b =>
      (a.drop (a.length - O)).length = O ∧ a.drop (a.length - O) = b.take O) := by
  have _hs := hs
  exact ⟨splitTextAux_length_le L O hO s.length s le_rfl,
    splitTextAux_chain L O hO s.length s⟩

/-- Witness for C4: the text "abcdefgh" with L = 5, O = 2 splits into chunks
of length at most 5 whose adjacent pairs overlap by exactly 2 characters. -/
theorem claim_C4_witness :
    (['a', 'b', 'c', 'd', 'e'] : List Char).length ≤ 5 ∧
    (splitText 5 2 ['a', 'b', 'c', 'd', 'e', 'f', 'g', 'h']).Chain' (fun a b =>
      (a.drop (a.length - 2)).length = 2 ∧ a.drop (a.length - 2) = b.take 2) :=
  ⟨(claim_C4 5 2 ['a', 'b', 'c', 'd', 'e', 'f', 'g', 'h'] (by decide)
      (by decide)).1 ['a', 'b', 'c', 'd', 'e'] (by decide),
   (claim_C4 5 2 ['a', 'b', 'c', 'd', 'e', 'f', 'g', 'h'] (by decide)
      (by decide)).2⟩

/-- Dot product of two embedding vectors (pairwise, truncating to the shorter
vector, as numpy broadcasting never arises here: all embeddings share the
model dimension). -/
def dot (a b : List ℚ) : ℚ :=
  ((a.zip b).map fun p => p.1 * p.2).sum

/-- Sign-preserving square of the cosine similarity of v and e, as an exact
rational: dot(v,e)·|dot(v,e)| / (dot(e,e)·dot(v,v)). Since x ↦ x·|x| is
strictly increasing and norms are positive, ranking by this key is exactly
ranking by cosine similarity, while staying in ℚ. -/
def simKey (v e : List ℚ) : ℚ :=
  (dot v e * |dot v e|) / (dot e e * dot v v)

/-- Comparison used to rank stored records for a query vector: r before s
when r is at least as similar to v as s is. -/
def simLe (v : List ℚ) (r s : StoredRecord) : Bool :=
  decide (simKey v s.embedding ≤ simKey v r.embedding)

/-- Cosine similarity of two vectors over the reals (the similarity measure
named by the collection metadata in the source). -/
noncomputable def cosineSim (a b : List ℚ) : ℝ :=
  (dot a b : ℝ) / (Real.sqrt ((dot a a : ℚ) : ℝ) * Real.sqrt ((dot b b : ℚ) : ℝ))

/-- x ↦ x·|x| is strictly increasing on ℝ. -/
theorem strictMono_mul_abs : StrictMono (fun x : ℝ => x * |x|) := by
  intro x y hxy
  simp only
  rcases le_or_lt 0 x with hx | hx
  · have hy : 0 < y := lt_of_le_of_lt hx hxy
    rw [abs_of_nonneg hx, abs_of_pos hy]
    nlinarith
  · rcases le_or_lt 0 y with hy | hy
    · rw [abs_of_neg hx, abs_of_nonneg hy]
      nlinarith
    · rw [abs_of_neg hx, abs_of_neg hy]
      nlinarith

/-- The rational ranking key is exactly the sign-preserving square of the
real cosine similarity. -/
theorem simKey_cast (v e : List ℚ) (he : 0 < dot e e) (hv : 0 < dot v v) :
    ((simKey v e : ℚ) : ℝ) = cosineSim v e * |cosineSim v e| := by
  have hE : (0 : ℝ) < ((dot e e : ℚ) : ℝ) := by exact_mod_cast he
  have hV : (0 : ℝ) < ((dot v v : ℚ) : ℝ) := by exact_mod_cast hv
  have hsE : (0 : ℝ) < Real.sqrt ((dot e e : ℚ) : ℝ) := Real.sqrt_pos.mpr hE
  have hsV : (0 : ℝ) < Real.sqrt ((dot v v : ℚ) : ℝ) := Real.sqrt_pos.mpr hV
  have key : (Real.sqrt ((dot v v : ℚ) : ℝ) * Real.sqrt ((dot e e : ℚ) : ℝ)) *
      (Real.sqrt ((dot v v : ℚ) : ℝ) * Real.sqrt ((dot e e : ℚ) : ℝ)) =
      ((dot v v : ℚ) : ℝ) * ((dot e e : ℚ) : ℝ) := by
    rw [mul_mul_mul_comm, Real.mul_self_sqrt hV.le, Real.mul_self_sqrt hE.le]
  unfold simKey cosineSim
  push_cast
  rw [abs_div, abs_mul, abs_of_pos hsV, abs_of_pos hsE, div_mul_div_comm, key]
  ring

/-- Ranking by `simKey` is ranking by cosine similarity: for non-degenerate
vectors the two orders coincide. -/
theorem simKey_le_iff (v a b : List ℚ) (ha : 0 < dot a a) (hb : 0 < dot b b)
    (hv : 0 < dot v v) :
    (simKey v a ≤ simKey v b ↔ cosineSim v a ≤ cosineSim v b) := by
  rw [show (simKey v a ≤ simKey v b) ↔
      ((simKey v a : ℚ) : ℝ) ≤ ((simKey v b : ℚ) : ℝ) from (Rat.cast_le).symm]
  rw [simKey_cast v a ha hv, simKey_cast v b hb hv]
  exact strictMono_mul_abs.le_iff_le

/-- Modelled from the spec: `VectorStoreManager.query` delegates the search to
`collection.query` of chromadb, which is not part of this repository. The
spec contract: the k nearest stored records by cosine similarity, ranked
closest first, ties broken by insertion order (mergeSort is stable); fewer
than k records means all of them; an empty collection gives an empty
result. -/
def storeQuery (store : List StoredRecord) (v : List ℚ) (k : Nat) :
    List StoredRecord :=
  (store.mergeSort (simLe v)).take k

/-- `simLe` is transitive. -/
theorem simLe_trans (v : List ℚ) (a b c : StoredRecord)
    (hab : simLe v a b = true) (hbc : simLe v b c = true) :
    simLe v a c = true := by
  simp only [simLe, decide_eq_true_eq] at hab hbc ⊢
  exact le_trans hbc hab

/-- `simLe` is total. -/
theorem simLe_total (v : List ℚ) (a b : StoredRecord) :
    (simLe v a b || simLe v b a) = true := by
  simp only [simLe, Bool.or_eq_true, decide_eq_true_eq]
  exact le_total (simKey v b.embedding) (simKey v a.embedding)

/-- Claim C6: a query on an empty store returns an empty ranked list, and on
a store with fewer than k records it returns exactly all stored records,
ranked most-similar first. -/
theorem claim_C6 :
    (∀ (v : List ℚ) (k : Nat), storeQuery [] v k = []) ∧
    (∀ (store : List StoredRecord) (v : List ℚ) (k : Nat),
      store.length < k →
        (storeQuery store v k).length = store.length ∧
        List.Perm (storeQuery store v k) store ∧
        (storeQuery store v k).Pairwise
          (fun r s => simKey v s.embedding ≤ simKey v r.embedding) ∧
        ((∀ r ∈ store, 0 < dot r.embedding r.embedding) → 0 < dot v v →
          (storeQuery store v k).Pairwise
            (fun r s => cosineSim v s.embedding ≤ cosineSim v r.embedding))) := by
  constructor
  · intro v k
    simp [storeQuery]
  · intro store v k hk
    have hperm : List.Perm (store.mergeSort (simLe v)) store :=
      List.mergeSort_perm store (simLe v)
    have hlen : (store.mergeSort (simLe v)).length = store.length := hperm.length_eq
    have htake : storeQuery store v k = store.mergeSort (simLe v) := by
      unfold storeQuery
      exact List.take_of_length_le (by omega)
    have hpw : (storeQuery store v k).Pairwise
        (fun r s => simKey v s.embedding ≤ simKey v r.embedding) := by
      rw [htake]
      have := List.sorted_mergeSort (simLe_trans v) (simLe_total v) store
      exact this.imp (fun h => by simpa [simLe] using h)
    have hmem : ∀ r ∈ storeQuery store v k, r ∈ store := by
      intro r hr
      rw [htake] at hr
      exact hperm.mem_iff.mp hr
    refine ⟨by rw [htake, hlen], by rw [htake]; exact hperm, hpw, ?_⟩
    intro hpos hv
    refine hpw.imp_of_mem ?_
    intro r s hr hs hks
    exact (simKey_le_iff v s.embedding r.embedding
      (hpos s (hmem s hs)) (hpos r (hmem r hr)) hv).mp hks

/-- Witness for C6: a two-record store queried with k = 3 returns both
records, the closer one first. -/
theorem claim_C6_witness :
    storeQuery [] [1, 0] 3 = [] ∧
    (storeQuery [⟨"a", [1, 0], "ta", []⟩, ⟨"b", [0, 1], "tb", []⟩] [1, 0] 3).length = 2 ∧
    List.Perm (storeQuery [⟨"a", [1, 0], "ta", []⟩, ⟨"b", [0, 1], "tb", []⟩] [1, 0] 3)
      [⟨"a", [1, 0], "ta", []⟩, ⟨"b", [0, 1], "tb", []⟩] ∧
    (storeQuery [⟨"a", [1, 0], "ta", []⟩, ⟨"b", [0, 1], "tb", []⟩] [1, 0] 3).Pairwise
      (fun r s => simKey [1, 0] s.embedding ≤ simKey [1, 0] r.embedding) ∧
    (storeQuery [⟨"a", [1, 0], "ta", []⟩, ⟨"b", [0, 1], "tb", []⟩] [1, 0] 3).Pairwise
      (fun r s => cosineSim [1, 0] s.embedding ≤ cosineSim [1, 0] r.embedding) :=
  ⟨claim_C6.1 [1, 0] 3,
   (claim_C6.2 [⟨"a", [1, 0], "ta", []⟩, ⟨"b", [0, 1], "tb", []⟩] [1, 0] 3 (by decide)).1,
   (claim_C6.2 [⟨"a", [1, 0], "ta", []⟩, ⟨"b", [0, 1], "tb", []⟩] [1, 0] 3 (by decide)).2.1,
   (claim_C6.2 [⟨"a", [1, 0], "ta", []⟩, ⟨"b", [0, 1], "tb", []⟩] [1, 0] 3 (by decide)).2.2.1,
   (claim_C6.2 [⟨"a", [1, 0], "ta", []⟩, ⟨"b", [0, 1], "tb", []⟩] [1, 0] 3
      (by decide)).2.2.2
      (by
        intro r hr
        rcases List.mem_cons.mp hr with rfl | hr2
        · simp [dot]
        · rcases List.mem_cons.mp hr2 with rfl | hr3
          · simp [dot]
          · exact absurd hr3 (List.not_mem_nil r))
      (by simp [dot])⟩

/-- The shape of the chromadb query result consumed by `RAGSystem.query`:
parallel singleton-wrapped lists of texts and metadata maps (chroma returns
one inner list per query embedding; this system always sends one). -/
structure QueryResults where
  documents : List (List String)
  metadatas : List (List Metadata)
deriving Repr

/-- One entry of the `sources` list produced by `RAGSystem.query`. -/
structure SourceEntry where
  content : String
  metadata : Metadata
  relevance_rank : Nat
deriving DecidableEq, Repr

/-- Observable outcome of `RAGSystem.query`: the returned answer and sources,
plus the list of prompts submitted to the language model during the call
(empty when the model was never invoked). -/
structure QueryOutcome where
  answer : String
  sources : List SourceEntry
  llmPrompts : List String
deriving DecidableEq, Repr

/-- The prompt `RAGRetriever.generate_answer` builds, verbatim from the
source f-string. -/
def generate_answer_prompt (query context : String) : String :=
  "Use the following context to answer the question. If you don\x27t know the answer based on the context, say so.\n\nContext: "
    ++ context ++ "\n\nQuestion: " ++ query ++ "\n\nAnswer:"

/-- `RAGSystem.query` after retrieval: the guard
`not results[documents] or not results[documents][0]` returns the fixed
no-relevant-documents response without calling the language model; otherwise
the retrieved texts are joined with a blank line, the prompt is submitted to
the model (oracle `llm`), and the sources are the ranked (text, metadata)
pairs. -/
def rag_query (llm : String → String) (results : QueryResults)
    (question : String) : QueryOutcome :=
  match results.documents with
  | [] =>
    { answer := "No relevant documents found in the database.",
      sources := [], llmPrompts := [] }
  | docs0 :: _ =>
    if docs0.isEmpty then
      { answer := "No relevant documents found in the database.",
        sources := [], llmPrompts := [] }
    else
      (fun context =>
        (fun prompt =>
          { answer := llm prompt,
            sources := (docs0.zip (results.metadatas.headD [])).enum.map fun p =>
              { content := p.2.1, metadata := p.2.2, relevance_rank := p.1 + 1 },
            llmPrompts := [prompt] })
        (generate_answer_prompt question context))
      (String.intercalate "\n\n" docs0)

/-- `RAGRetriever.retrieve` followed by the chroma result shaping: the store
query result as `RAGSystem.query` sees it. -/
def retrieveResults (store : List StoredRecord) (v : List ℚ) (k : Nat) :
    QueryResults :=
  { documents := [(storeQuery store v k).map StoredRecord.text],
    metadatas := [(storeQuery store v k).map StoredRecord.metadata] }

/-- The composed query pipeline of `RAGSystem.query`: retrieve from the
store with the embedded question `qv`, then answer. -/
def rag_system_query (llm : String → String) (store : List StoredRecord)
    (qv : List ℚ) (question : String) (k : Nat) : QueryOutcome :=
  rag_query llm (retrieveResults store qv k) question

/-- Claim C1: whenever the vector-store query returns an empty result set —
in particular on an empty store — `RAGSystem.query` returns exactly the
fixed no-relevant-documents answer with an empty sources list, and the
language model is never invoked. -/
theorem claim_C1 :
    (∀ (llm : String → String) (results : QueryResults) (question : String),
      results.documents.headD [] = [] →
        rag_query llm results question =
          { answer := "No relevant documents found in the database.",
            sources := [], llmPrompts := [] }) ∧
    (∀ (llm : String → String) (qv : List ℚ) (k : Nat) (question : String),
      rag_system_query llm [] qv question k =
        { answer := "No relevant documents found in the database.",
          sources := [], llmPrompts := [] }) := by
  constructor
  · intro llm results question h
    cases hdoc : results.documents with
    | nil => simp [rag_query, hdoc]
    | cons docs0 rest =>
      rw [hdoc] at h
      simp only [List.headD_cons] at h
      subst h
      simp [rag_query, hdoc]
  · intro llm qv k question
    simp [rag_system_query, retrieveResults, storeQuery, rag_query,
      List.mergeSort_nil]

/-- Witness for C1: an empty result set and an empty store both yield the
fixed answer, no sources and no language-model call. -/
theorem claim_C1_witness :
    rag_query (fun p => p) ⟨[], []⟩ "q" =
      { answer := "No relevant documents found in the database.",
        sources := [], llmPrompts := [] } ∧
    rag_system_query (fun p => p) [] [1] "q" 3 =
      { answer := "No relevant documents found in the database.",
        sources := [], llmPrompts := [] } :=
  ⟨claim_C1.1 (fun p => p) ⟨[], []⟩ "q" rfl,
   claim_C1.2 (fun p => p) [1] 3 "q"⟩

/-- Claim C7: whenever retrieval produced a non-empty list of chunk texts,
the single prompt submitted to the language model is exactly the fixed
template around the context (the retrieved texts in rank order joined by a
blank line) and the question, and the returned answer is the model response
to that prompt. -/
theorem claim_C7 (llm : String → String) (results : QueryResults)
    (question : String) (d : String) (ds : List String)
    (h : results.documents.headD [] = d :: ds) :
    (rag_query llm results question).llmPrompts =
      ["Use the following context to answer the question. If you don\x27t know the answer based on the context, say so.\n\nContext: "
        ++ String.intercalate "\n\n" (d :: ds)
        ++ "\n\nQuestion: " ++ question ++ "\n\nAnswer:"] ∧
    (rag_query llm results question).answer =
      llm ("Use the following context to answer the question. If you don\x27t know the answer based on the context, say so.\n\nContext: "
        ++ String.intercalate "\n\n" (d :: ds)
        ++ "\n\nQuestion: " ++ question ++ "\n\nAnswer:") := by
  cases hdoc : results.documents with
  | nil => rw [hdoc] at h; exact absurd h (by simp)
  | cons docs0 rest =>
    rw [hdoc] at h
    simp only [List.headD_cons] at h
    subst h
    simp [rag_query, hdoc, generate_answer_prompt]

/-- Witness for C7: two retrieved chunks produce exactly the fixed template
with the blank-line-joined context, submitted once. -/
theorem claim_C7_witness :
    (rag_query (fun p => p) ⟨[["chunk1", "chunk2"]], [[[], []]]⟩ "q").llmPrompts =
      ["Use the following context to answer the question. If you don\x27t know the answer based on the context, say so.\n\nContext: chunk1\n\nchunk2\n\nQuestion: q\n\nAnswer:"] ∧
    (rag_query (fun p => p) ⟨[["chunk1", "chunk2"]], [[[], []]]⟩ "q").answer =
      "Use the following context to answer the question. If you don\x27t know the answer based on the context, say so.\n\nContext: chunk1\n\nchunk2\n\nQuestion: q\n\nAnswer:" := by
  have h := claim_C7 (fun p => p) ⟨[["chunk1", "chunk2"]], [[[], []]]⟩ "q"
    "chunk1" ["chunk2"] rfl
  exact ⟨h.1.trans (by rfl), h.2.trans (by rfl)⟩

/-- One file of a `POST /upload-multiple` request: its name and the outcome
the ingestion pipeline would have for it (oracle; the filesystem save is
abstracted as pure). -/
structure UploadFile where
  filename : String
  ingestResult : Except String Unit

/-- One entry of the per-file results list of `upload_multiple_files`. -/
structure FileResult where
  filename : String
  status : String
  message : String
deriving DecidableEq, Repr

/-- Python str.endswith, as a suffix test on the character data (stated on
`List Char` so that concrete instances reduce). -/
def strEndsWith (s suffix : String) : Bool :=
  suffix.data.isSuffixOf s.data

/-- Per-file processing of `upload_multiple_files`: dispatch on the filename
suffix (.pdf, then .xlsx/.xls), report ingestion errors per file, mark other
suffixes skipped. -/
def upload_one (f : UploadFile) : FileResult :=
  if strEndsWith f.filename ".pdf" then
    match f.ingestResult with
    | .ok _ => ⟨f.filename, "success", "Ingested successfully"⟩
    | .error e => ⟨f.filename, "error", e⟩
  else if strEndsWith f.filename ".xlsx" || strEndsWith f.filename ".xls" then
    match f.ingestResult with
    | .ok _ => ⟨f.filename, "success", "Ingested successfully"⟩
    | .error e => ⟨f.filename, "error", e⟩
  else ⟨f.filename, "skipped", "Unsupported file type"⟩

/-- `upload_multiple_files`: every file is processed independently; the call
itself always returns a results list (it never fails wholesale). -/
def upload_multiple_files (files : List UploadFile) : List FileResult :=
  files.map upload_one

/-- Claim C9: the multiple-upload endpoint returns exactly one outcome per
input file; unsupported suffixes are skipped, ingestion errors are reported
per file with their message, and successful ingestions are reported as
success. -/
theorem claim_C9 (files : List UploadFile) :
    (upload_multiple_files files).length = files.length ∧
    ∀ (i : Nat) (f : UploadFile) (r : FileResult),
      files[i]? = some f → (upload_multiple_files files)[i]? = some r →
      r.filename = f.filename ∧
      ((strEndsWith f.filename ".pdf" = false ∧ strEndsWith f.filename ".xlsx" = false ∧
          strEndsWith f.filename ".xls" = false) →
        r.status = "skipped" ∧ r.message = "Unsupported file type") ∧
      (∀ e, (strEndsWith f.filename ".pdf" = true ∨ strEndsWith f.filename ".xlsx" = true ∨
          strEndsWith f.filename ".xls" = true) → f.ingestResult = .error e →
        r.status = "error" ∧ r.message = e) ∧
      ((strEndsWith f.filename ".pdf" = true ∨ strEndsWith f.filename ".xlsx" = true ∨
          strEndsWith f.filename ".xls" = true) → f.ingestResult = .ok () →
        r.status = "success") := by
  refine ⟨by simp [upload_multiple_files], ?_⟩
  intro i f r hf hr
  have : (upload_multiple_files files)[i]? = some (upload_one f) := by
    simp [upload_multiple_files, List.getElem?_map, hf]
  rw [this] at hr
  rcases Option.some.injEq _ _ |>.mp hr with rfl
  unfold upload_one
  by_cases hpdf : strEndsWith f.filename ".pdf"
  · cases hres : f.ingestResult with
    | ok u =>
      cases u
      simp [hpdf, hres]
    | error e => simp [hpdf, hres]
  · by_cases hx : strEndsWith f.filename ".xlsx"
    · cases hres : f.ingestResult with
      | ok u =>
        cases u
        simp [hpdf, hx, hres]
      | error e => simp [hpdf, hx, hres]
    · by_cases hxls : strEndsWith f.filename ".xls"
      · cases hres : f.ingestResult with
        | ok u =>
          cases u
          simp [hpdf, hx, hxls, hres]
        | error e => simp [hpdf, hx, hxls, hres]
      · simp [hpdf, hx, hxls]

/-- Witness for C9: three files — a pdf that ingests, an xls whose ingestion
raises "boom", and a txt — yield three outcomes: success, error with the
message, skipped. -/
theorem claim_C9_witness :
    (upload_multiple_files [⟨"a.pdf", .ok ()⟩, ⟨"b.xls", .error "boom"⟩,
        ⟨"c.txt", .ok ()⟩]).length = 3 ∧
    ((⟨"a.pdf", "success", "Ingested successfully"⟩ : FileResult).status = "success") ∧
    ((⟨"b.xls", "error", "boom"⟩ : FileResult).status = "error" ∧
      (⟨"b.xls", "error", "boom"⟩ : FileResult).message = "boom") ∧
    ((⟨"c.txt", "skipped", "Unsupported file type"⟩ : FileResult).status = "skipped" ∧
      (⟨"c.txt", "skipped", "Unsupported file type"⟩ : FileResult).message =
        "Unsupported file type") :=
  ⟨(claim_C9 [⟨"a.pdf", .ok ()⟩, ⟨"b.xls", .error "boom"⟩, ⟨"c.txt", .ok ()⟩]).1,
   ((claim_C9 [⟨"a.pdf", .ok ()⟩, ⟨"b.xls", .error "boom"⟩, ⟨"c.txt", .ok ()⟩]).2
      0 ⟨"a.pdf", .ok ()⟩ ⟨"a.pdf", "success", "Ingested successfully"⟩ rfl
      (by decide)).2.2.2 (Or.inl (by decide)) rfl,
   ((claim_C9 [⟨"a.pdf", .ok ()⟩, ⟨"b.xls", .error "boom"⟩, ⟨"c.txt", .ok ()⟩]).2
      1 ⟨"b.xls", .error "boom"⟩ ⟨"b.xls", "error", "boom"⟩ rfl
      (by decide)).2.2.1 "boom" (Or.inr (Or.inr (by decide))) rfl,
   ((claim_C9 [⟨"a.pdf", .ok ()⟩, ⟨"b.xls", .error "boom"⟩, ⟨"c.txt", .ok ()⟩]).2
      2 ⟨"c.txt", .ok ()⟩ ⟨"c.txt", "skipped", "Unsupported file type"⟩ rfl
      (by decide)).2.1 (by decide)⟩

end RAGSpec
